import Mathlib

/-!
Verification of the panini-nlp sandhi core (`panini_nlp/sounds.py`,
`panini_nlp/text/processing.py`, `panini_nlp/sandhi.py`).

Python strings are modelled as `List Char` (a Python `str` is a sequence of
Unicode code points, and all the code under verification indexes strings by
code point).  Python float confidences, which are only ever the exact values
`0.0` and `1.0`, are modelled as `ℚ`.
-/

set_option maxRecDepth 10000

namespace Panini

/-- Place of articulation.  The Python source stores these as the strings
"kantha", "talu", "murdha", "danta", "ostha", "kantha-talu", "kantha-ostha",
"danta-ostha", "nasika", "none"; they are a closed set used only for equality
tests, so they are embedded as an enumeration. -/
inductive Place where
  | kantha | talu | murdha | danta | ostha
  | kanthaTalu | kanthaOstha | dantaOstha | nasika | nonePlace
deriving DecidableEq, Repr

/-- `sounds.Phoneme` (frozen dataclass).  `as_matra` is `Optional[str]` in the
source; the phoneme `A` has `as_matra = ""`, which Python treats as absent at
every use site (the `MATRA_MAP` comprehension filters on truthiness and
`recompose` tests `elif p.as_matra:`), so the empty string is embedded as
`none`. -/
structure Phoneme where
  symbol : Char
  is_vowel : Bool
  is_voiced : Bool
  place : Place
  as_matra : Option Char := none
deriving DecidableEq, Repr

/-! The phoneme registry from `sounds.py`. -/

def A : Phoneme := ⟨'अ', true, true, .kantha, none⟩
def AA : Phoneme := ⟨'आ', true, true, .kantha, some 'ा'⟩
def I : Phoneme := ⟨'इ', true, true, .talu, some 'ि'⟩
def II : Phoneme := ⟨'ई', true, true, .talu, some 'ी'⟩
def U : Phoneme := ⟨'उ', true, true, .ostha, some 'ु'⟩
def UU : Phoneme := ⟨'ऊ', true, true, .ostha, some 'ू'⟩
def R : Phoneme := ⟨'ऋ', true, true, .murdha, some 'ृ'⟩
def RR : Phoneme := ⟨'ॠ', true, true, .murdha, some 'ॄ'⟩
def L : Phoneme := ⟨'ऌ', true, true, .danta, some 'ॢ'⟩
def E : Phoneme := ⟨'ए', true, true, .kanthaTalu, some 'े'⟩
def AI : Phoneme := ⟨'ऐ', true, true, .kanthaTalu, some 'ै'⟩
def O : Phoneme := ⟨'ओ', true, true, .kanthaOstha, some 'ो'⟩
def AU : Phoneme := ⟨'औ', true, true, .kanthaOstha, some 'ौ'⟩

def KA : Phoneme := ⟨'क', false, false, .kantha, none⟩
def KHA : Phoneme := ⟨'ख', false, false, .kantha, none⟩
def GA : Phoneme := ⟨'ग', false, true, .kantha, none⟩
def GHA : Phoneme := ⟨'घ', false, true, .kantha, none⟩
def NGA : Phoneme := ⟨'ङ', false, true, .kantha, none⟩

def CA : Phoneme := ⟨'च', false, false, .talu, none⟩
def CHA : Phoneme := ⟨'छ', false, false, .talu, none⟩
def JA : Phoneme := ⟨'ज', false, true, .talu, none⟩
def JHA : Phoneme := ⟨'झ', false, true, .talu, none⟩
def NYA : Phoneme := ⟨'ञ', false, true, .talu, none⟩

def TA : Phoneme := ⟨'ट', false, false, .murdha, none⟩
def THA : Phoneme := ⟨'ठ', false, false, .murdha, none⟩
def DA : Phoneme := ⟨'ड', false, true, .murdha, none⟩
def DHA : Phoneme := ⟨'ढ', false, true, .murdha, none⟩
def NA : Phoneme := ⟨'ण', false, true, .murdha, none⟩

def TA_D : Phoneme := ⟨'त', false, false, .danta, none⟩
def THA_D : Phoneme := ⟨'थ', false, false, .danta, none⟩
def DA_D : Phoneme := ⟨'द', false, true, .danta, none⟩
def DHA_D : Phoneme := ⟨'ध', false, true, .danta, none⟩
def NA_D : Phoneme := ⟨'न', false, true, .danta, none⟩

def PA : Phoneme := ⟨'प', false, false, .ostha, none⟩
def PHA : Phoneme := ⟨'फ', false, false, .ostha, none⟩
def BA : Phoneme := ⟨'ब', false, true, .ostha, none⟩
def BHA : Phoneme := ⟨'भ', false, true, .ostha, none⟩
def MA : Phoneme := ⟨'म', false, true, .ostha, none⟩

def YA : Phoneme := ⟨'य', false, true, .talu, none⟩
def RA : Phoneme := ⟨'र', false, true, .murdha, none⟩
def LA : Phoneme := ⟨'ल', false, true, .danta, none⟩
def VA : Phoneme := ⟨'व', false, true, .dantaOstha, none⟩

def SHA : Phoneme := ⟨'श', false, false, .talu, none⟩
def SSA : Phoneme := ⟨'ष', false, false, .murdha, none⟩
def SA : Phoneme := ⟨'स', false, false, .danta, none⟩
def HA : Phoneme := ⟨'ह', false, true, .kantha, none⟩

def VIRAMA : Phoneme := ⟨'्', false, false, .nonePlace, none⟩
def ANUSVARA : Phoneme := ⟨'ं', false, true, .nasika, none⟩
def VISARGA : Phoneme := ⟨'ः', false, false, .kantha, none⟩

def ALL_PHONEMES : List Phoneme :=
  [A, AA, I, II, U, UU, R, RR, L, E, AI, O, AU,
   KA, KHA, GA, GHA, NGA,
   CA, CHA, JA, JHA, NYA,
   TA, THA, DA, DHA, NA,
   TA_D, THA_D, DA_D, DHA_D, NA_D,
   PA, PHA, BA, BHA, MA,
   YA, RA, LA, VA,
   SHA, SSA, SA, HA,
   VIRAMA, ANUSVARA, VISARGA]

/-- `SYMBOL_MAP` as a lookup function.  Symbols are pairwise distinct, so
`find?` over the registry list agrees with the Python dict built from it. -/
def symbolMap (c : Char) : Option Phoneme :=
  ALL_PHONEMES.find? (fun p => p.symbol == c)

/-- `MATRA_MAP` as a lookup function: dependent-vowel sign to independent
vowel phoneme, for vowels with a truthy `as_matra`. -/
def matraMap (c : Char) : Option Phoneme :=
  ALL_PHONEMES.find? (fun p => p.is_vowel && p.as_matra == some c)

/-- `processing.decompose`.  The Python `while` loop over an index `i`
advances by one or two positions per iteration; it is embedded as recursion
over the remaining character list. -/
def decompose : List Char → List Phoneme
  | [] => []
  | [c] =>
    match symbolMap c with
    | none => []
    | some p =>
      if p.is_vowel then [p]
      else if p ≠ VIRAMA then [p, A]
      else [p]
  | c :: d :: rest =>
    match symbolMap c with
    | none => decompose (d :: rest)
    | some p =>
      if p.is_vowel then
        p :: decompose (d :: rest)
      else if p ≠ VIRAMA then
        match matraMap d with
        | some v => p :: v :: decompose rest
        | none =>
          if d = VIRAMA.symbol then p :: decompose rest
          else p :: A :: decompose (d :: rest)
      else
        p :: decompose (d :: rest)

/-- The helper behind `processing.recompose`.  The Python loop inspects
`phonemes[idx-1]` and `phonemes[idx+1]`; `prev` carries the former and the
head of the remaining list is the latter, so each iteration emits exactly the
chunk the Python body appends at index `idx`. -/
def recomposeAux (prev : Option Phoneme) : List Phoneme → List Char
  | [] => []
  | p :: rest =>
    if p.is_vowel then
      (match prev with
       | some q =>
         if !q.is_vowel && q ≠ VIRAMA then
           if p = A then []
           else match p.as_matra with
                | some m => [m]
                | none => [p.symbol]
         else [p.symbol]
       | none => [p.symbol]) ++ recomposeAux (some p) rest
    else
      ([p.symbol] ++
        (if p.symbol ∉ (['्', 'ं', 'ः'] : List Char) then
          match rest with
          | [] => [VIRAMA.symbol]
          | q :: _ => if q.is_vowel then [] else [VIRAMA.symbol]
         else [])) ++ recomposeAux (some p) rest

/-- `processing.recompose`. -/
def recompose (phonemes : List Phoneme) : List Char :=
  recomposeAux none phonemes

/-! ### Glyph classes for the spec's well-formedness condition

The round-trip law (§8 of the spec) is asserted for "orthographic strings
composed only of recognized glyphs with well-formed syllable structure (every
consonant cluster properly suppressed, no dangling modifiers)".  The classes
below partition the recognized glyphs. -/

/-- The independent-vowel glyphs of the registry. -/
def vowelChars : List Char :=
  ['अ', 'आ', 'इ', 'ई', 'उ', 'ऊ', 'ऋ', 'ॠ', 'ऌ', 'ए', 'ऐ', 'ओ', 'औ']

/-- The consonant glyphs of the registry (neither vowels nor modifiers). -/
def consChars : List Char :=
  ['क', 'ख', 'ग', 'घ', 'ङ',
   'च', 'छ', 'ज', 'झ', 'ञ',
   'ट', 'ठ', 'ड', 'ढ', 'ण',
   'त', 'थ', 'द', 'ध', 'न',
   'प', 'फ', 'ब', 'भ', 'म',
   'य', 'र', 'ल', 'व',
   'श', 'ष', 'स', 'ह']

/-- The dependent-vowel signs (matras) of the registry. -/
def matraChars : List Char :=
  ['ा', 'ि', 'ी', 'ु', 'ू', 'ृ', 'ॄ', 'ॢ', 'े', 'ै', 'ो', 'ौ']

/-- The nasalization and aspiration marks (anusvara, visarga). -/
def modChars : List Char := ['ं', 'ः']

def isVowelGlyph (c : Char) : Bool := vowelChars.contains c
def isConsGlyph (c : Char) : Bool := consChars.contains c
def isMatraGlyph (c : Char) : Bool := matraChars.contains c
def isModGlyph (c : Char) : Bool := modChars.contains c

/-- Well-formed syllable structure, formalizing §8 of the spec: only
recognized glyphs; a matra only directly after a consonant; the
vowel-suppressor only directly after a consonant, with the cluster continuing
in a consonant (or the input ending); a nasalization/aspiration mark only
after a vowel-bearing unit (`modOK` tracks whether one may appear here). -/
def wfAux (modOK : Bool) : List Char → Bool
  | [] => true
  | [c] =>
    if isVowelGlyph c then true
    else if isConsGlyph c then true
    else if isModGlyph c then modOK
    else false
  | c :: d :: rest =>
    if isVowelGlyph c then wfAux true (d :: rest)
    else if isConsGlyph c then
      if isMatraGlyph d then wfAux true rest
      else if d = '्' then
        (match rest with
         | [] => true
         | e :: _ => isConsGlyph e) && wfAux false rest
      else wfAux true (d :: rest)
    else if isModGlyph c then modOK && wfAux true (d :: rest)
    else false

/-- A string is well formed when it parses as a sequence of syllables with no
leading dangling modifier. -/
def wellFormed (cs : List Char) : Bool := wfAux false cs

/-! ### The sandhi engine (`sandhi.py`) -/

/-- `sandhi.Sutra` (grammar-rule citation record). -/
structure Sutra where
  id : String
  text : String
  description : String
  type : String := "vidhi"
deriving DecidableEq, Repr

/-- `sandhi.SandhiResult`.  The `confidence` float only ever takes the exact
values `0.0` and `1.0`; it is embedded as a rational. -/
structure SandhiResult where
  original : List Char
  modified : List Char
  rule_applied : Option Sutra := none
  confidence : ℚ := 0
deriving DecidableEq, Repr

def sutra77 : Sutra :=
  ⟨"6.1.77", "iko yaṇaci",
   "ik (i/ī, u/ū, ṛ/ṝ, ḷ) before a dissimilar vowel → yaṇ (y, v, r, l)", "vidhi"⟩

def sutra87 : Sutra :=
  ⟨"6.1.87", "ādguṇaḥ",
   "a/ā + i/ī → e;  a/ā + u/ū → o;  a/ā + ṛ/ṝ → ar;  a/ā + ḷ → al  (Guṇa)", "vidhi"⟩

def sutra88 : Sutra :=
  ⟨"6.1.88", "vṛddhireci",
   "a/ā + e → ai;  a/ā + o → au  (Vṛddhi)", "vidhi"⟩

def sutra101 : Sutra :=
  ⟨"6.1.101", "akaḥ savarṇe dīrghaḥ",
   "Two similar (savarṇa) simple vowels merge into the long vowel", "vidhi"⟩

/-- `sandhi._RULES`. -/
def RULES : List Sutra := [sutra77, sutra87, sutra88, sutra101]

/-- `sandhi._rule`: lookup by id in the fixed rule table. -/
def ruleFor (rid : String) : Option Sutra := RULES.find? (fun r => r.id == rid)

/-- The `ak` pratyāhāra symbol set (`SandhiEngine.AK`). -/
def AK : List Char := ['अ', 'आ', 'इ', 'ई', 'उ', 'ऊ', 'ऋ', 'ॠ', 'ऌ']

/-- The `ik` pratyāhāra symbol set (`SandhiEngine.IK`). -/
def IK : List Char := ['इ', 'ई', 'उ', 'ऊ', 'ऋ', 'ॠ', 'ऌ']

/-- `SandhiEngine.YAN_MAP`: ik vowel symbol to its semivowel phoneme. -/
def yanMap (c : Char) : Option Phoneme :=
  if c = I.symbol ∨ c = II.symbol then some YA
  else if c = U.symbol ∨ c = UU.symbol then some VA
  else if c = R.symbol ∨ c = RR.symbol then some RA
  else if c = L.symbol then some LA
  else none

/-- The long-vowel replacement chain inside the 6.1.101 branch of
`SandhiEngine.apply`; `none` models the `replacement = None` fall-through
("L usually doesn't have long form"). -/
def dirghaOf (c : Char) : Option Phoneme :=
  if c = A.symbol ∨ c = AA.symbol then some AA
  else if c = I.symbol ∨ c = II.symbol then some II
  else if c = U.symbol ∨ c = UU.symbol then some UU
  else if c = R.symbol ∨ c = RR.symbol then some RR
  else none

/-- The vṛddhi replacement chain inside the 6.1.88 branch. -/
def vrddhiOf (c : Char) : Option Phoneme :=
  if c = E.symbol ∨ c = AI.symbol then some AI
  else if c = O.symbol ∨ c = AU.symbol then some AU
  else none

/-- The guṇa replacement chain inside the 6.1.87 branch; `[]` models the
falsy `replacement = []` fall-through. -/
def gunaOf (c : Char) : List Phoneme :=
  if c = I.symbol ∨ c = II.symbol then [E]
  else if c = U.symbol ∨ c = UU.symbol then [O]
  else if c = R.symbol ∨ c = RR.symbol then [A, RA]
  else if c = L.symbol then [A, LA]
  else []

/-- Python `str.strip()`: drop whitespace from both ends.  The claims under
verification never depend on which exotic Unicode code points count as
whitespace, only on stripping being idempotent and on whitespace-free
inputs, so the ASCII whitespace set of `Char.isWhitespace` stands in for
Python's. -/
def pyStrip (cs : List Char) : List Char :=
  ((cs.dropWhile Char.isWhitespace).reverse.dropWhile Char.isWhitespace).reverse

/-- The literal `" + "` of the `original` debug rendering. -/
def sepPlus : List Char := [' ', '+', ' ']

/-- `SandhiEngine._result`: recompose the merged phonemes and attach the
cited rule with confidence 1. -/
def mkResult (t1 t2 : List Char) (phonemes : List Phoneme) (rid : String) :
    SandhiResult :=
  ⟨t1 ++ sepPlus ++ t2, recompose phonemes, ruleFor rid, 1⟩

/-- The 6.1.101 block of `SandhiEngine.apply`: `some` when the branch
returns, `none` when control falls through. -/
def try101 (t1 t2 : List Char) (p1 p2 : List Phoneme) (last first : Phoneme) :
    Option SandhiResult :=
  if last.is_vowel ∧ first.is_vowel ∧ last.place = first.place ∧
      last.symbol ∈ AK then
    (dirghaOf last.symbol).map
      (fun rep => mkResult t1 t2 (p1.dropLast ++ [rep] ++ p2.tail) "6.1.101")
  else none

/-- The 6.1.88 block of `SandhiEngine.apply`. -/
def try88 (t1 t2 : List Char) (p1 p2 : List Phoneme) (last first : Phoneme) :
    Option SandhiResult :=
  if last.symbol ∈ ([A.symbol, AA.symbol] : List Char) ∧ first.is_vowel then
    (vrddhiOf first.symbol).map
      (fun rep => mkResult t1 t2 (p1.dropLast ++ [rep] ++ p2.tail) "6.1.88")
  else none

/-- The 6.1.87 block of `SandhiEngine.apply`. -/
def try87 (t1 t2 : List Char) (p1 p2 : List Phoneme) (last first : Phoneme) :
    Option SandhiResult :=
  if last.symbol ∈ ([A.symbol, AA.symbol] : List Char) ∧ first.is_vowel then
    match gunaOf first.symbol with
    | [] => none
    | rep => some (mkResult t1 t2 (p1.dropLast ++ rep ++ p2.tail) "6.1.87")
  else none

/-- The 6.1.77 block of `SandhiEngine.apply`: the following vowel is kept
(`p2` is appended whole). -/
def try77 (t1 t2 : List Char) (p1 p2 : List Phoneme) (last first : Phoneme) :
    Option SandhiResult :=
  if last.symbol ∈ IK ∧ first.is_vowel then
    (yanMap last.symbol).map
      (fun yan => mkResult t1 t2 (p1.dropLast ++ [yan] ++ p2) "6.1.77")
  else none

/-- The four rule checks of `SandhiEngine.apply`, in source order, first
match wins; the final case is the visible-separator fallback. -/
def ruleChain (t1 t2 : List Char) (p1 p2 : List Phoneme) : SandhiResult :=
  match try101 t1 t2 p1 p2 (p1.getLastD A) (p2.headD A) with
  | some r => r
  | none =>
    match try88 t1 t2 p1 p2 (p1.getLastD A) (p2.headD A) with
    | some r => r
    | none =>
      match try87 t1 t2 p1 p2 (p1.getLastD A) (p2.headD A) with
      | some r => r
      | none =>
        match try77 t1 t2 p1 p2 (p1.getLastD A) (p2.headD A) with
        | some r => r
        | none => ⟨t1 ++ sepPlus ++ t2, t1 ++ [' '] ++ t2, none, 0⟩

/-- The body of `SandhiEngine.apply` after both terms have been stripped. -/
def applyStripped (t1 t2 : List Char) : SandhiResult :=
  if t1 = [] ∨ t2 = [] then
    ⟨t1 ++ sepPlus ++ t2, t1 ++ t2, none, 1⟩
  else if decompose t1 = [] ∨ decompose t2 = [] then
    ⟨t1 ++ sepPlus ++ t2, t1 ++ t2, none, 1⟩
  else
    ruleChain t1 t2 (decompose t1) (decompose t2)

/-- `SandhiEngine.apply`: strip both terms, then run the rule chain.
`p1[-1]` and `p2[0]` are total here because the empty decompositions are
short-circuited, so the `getLastD`/`headD` defaults are never consulted. -/
def sandhiApply (term1 term2 : List Char) : SandhiResult :=
  applyStripped (pyStrip term1) (pyStrip term2)

/-! ### Facts about the glyph classes -/

/-- Bundled registry facts about an independent-vowel glyph. -/
def vowelGlyphOK (c : Char) : Bool :=
  match symbolMap c with
  | some p => p.is_vowel && (p.symbol == c) && (matraMap c).isNone && (c != '्')
  | none => false

/-- Bundled registry facts about a consonant glyph. -/
def consGlyphOK (c : Char) : Bool :=
  match symbolMap c with
  | some p =>
    !p.is_vowel && (p.symbol == c) && decide (p ≠ VIRAMA) &&
      decide (p.symbol ∉ (['्', 'ं', 'ः'] : List Char)) &&
      (matraMap c).isNone && (c != '्') && !(isVowelGlyph c)
  | none => false

/-- Bundled registry facts about a modifier glyph (anusvara, visarga). -/
def modGlyphOK (c : Char) : Bool :=
  match symbolMap c with
  | some p =>
    !p.is_vowel && (p.symbol == c) && decide (p ≠ VIRAMA) &&
      decide (p.symbol ∈ (['्', 'ं', 'ः'] : List Char)) &&
      (matraMap c).isNone && (c != '्') &&
      !(isVowelGlyph c) && !(isConsGlyph c)
  | none => false

theorem vowelGlyph_spec (c : Char) (h : isVowelGlyph c = true) :
    ∃ p, symbolMap c = some p ∧ p.is_vowel = true ∧ p.symbol = c ∧
      matraMap c = none ∧ c ≠ '्' := by
  have hok : vowelGlyphOK c = true := by
    have hall : ∀ x ∈ vowelChars, vowelGlyphOK x = true := by decide
    exact hall c (by simpa [isVowelGlyph, List.contains, List.elem_iff] using h)
  unfold vowelGlyphOK at hok
  cases hsm : symbolMap c with
  | none => rw [hsm] at hok; cases hok
  | some p =>
    rw [hsm] at hok
    simp only [Bool.and_eq_true, beq_iff_eq, Option.isNone_iff_eq_none,
      bne_iff_ne, ne_eq] at hok
    exact ⟨p, rfl, hok.1.1.1, hok.1.1.2, hok.1.2, hok.2⟩

theorem consGlyph_spec (c : Char) (h : isConsGlyph c = true) :
    ∃ p, symbolMap c = some p ∧ p.is_vowel = false ∧ p.symbol = c ∧
      p ≠ VIRAMA ∧ p.symbol ∉ (['्', 'ं', 'ः'] : List Char) ∧
      matraMap c = none ∧ c ≠ '्' ∧ isVowelGlyph c = false := by
  have hok : consGlyphOK c = true := by
    have hall : ∀ x ∈ consChars, consGlyphOK x = true := by decide
    exact hall c (by simpa [isConsGlyph, List.contains, List.elem_iff] using h)
  unfold consGlyphOK at hok
  cases hsm : symbolMap c with
  | none => rw [hsm] at hok; cases hok
  | some p =>
    rw [hsm] at hok
    simp only [Bool.and_eq_true, beq_iff_eq, Option.isNone_iff_eq_none,
      bne_iff_ne, ne_eq, Bool.not_eq_true', decide_eq_true_eq] at hok
    exact ⟨p, rfl, hok.1.1.1.1.1.1, hok.1.1.1.1.1.2, hok.1.1.1.1.2,
      hok.1.1.1.2, hok.1.1.2, hok.1.2, hok.2⟩

theorem modGlyph_spec (c : Char) (h : isModGlyph c = true) :
    ∃ p, symbolMap c = some p ∧ p.is_vowel = false ∧ p.symbol = c ∧
      p ≠ VIRAMA ∧ p.symbol ∈ (['्', 'ं', 'ः'] : List Char) ∧
      matraMap c = none ∧ c ≠ '्' ∧
      isVowelGlyph c = false ∧ isConsGlyph c = false := by
  have hok : modGlyphOK c = true := by
    have hall : ∀ x ∈ modChars, modGlyphOK x = true := by decide
    exact hall c (by simpa [isModGlyph, List.contains, List.elem_iff] using h)
  unfold modGlyphOK at hok
  cases hsm : symbolMap c with
  | none => rw [hsm] at hok; cases hok
  | some p =>
    rw [hsm] at hok
    simp only [Bool.and_eq_true, beq_iff_eq, Option.isNone_iff_eq_none,
      bne_iff_ne, ne_eq, Bool.not_eq_true', decide_eq_true_eq] at hok
    exact ⟨p, rfl, hok.1.1.1.1.1.1.1, hok.1.1.1.1.1.1.2, hok.1.1.1.1.1.2,
      hok.1.1.1.1.2, hok.1.1.1.2, hok.1.1.2, hok.1.2, hok.2⟩

theorem matraMap_isMatra {d : Char} {v : Phoneme} (h : matraMap d = some v) :
    isMatraGlyph d = true := by
  have hmem : v ∈ ALL_PHONEMES := List.mem_of_find?_eq_some h
  have hpred := List.find?_some h
  simp only [Bool.and_eq_true, beq_iff_eq] at hpred
  have key : ∀ p ∈ ALL_PHONEMES, (p.is_vowel && p.as_matra.isSome) = true →
      isMatraGlyph (p.as_matra.getD ' ') = true := by decide
  have := key v hmem (by rw [hpred.2]; simp [hpred.1])
  rwa [hpred.2, Option.getD_some] at this

theorem matraMap_eq_none {d : Char} (h : isMatraGlyph d = false) :
    matraMap d = none := by
  cases hm : matraMap d with
  | none => rfl
  | some v => rw [matraMap_isMatra hm] at h; cases h

theorem matraGlyph_spec (d : Char) (h : isMatraGlyph d = true) :
    ∃ v, matraMap d = some v ∧ v.is_vowel = true ∧ v ≠ A ∧
      v.as_matra = some d := by
  have key : ∀ x ∈ matraChars,
      (match matraMap x with
       | some v => v.is_vowel && decide (v ≠ A) && (v.as_matra == some x)
       | none => false) = true := by decide
  have hok := key d (by simpa [isMatraGlyph, List.contains, List.elem_iff] using h)
  cases hm : matraMap d with
  | none => rw [hm] at hok; cases hok
  | some v =>
    rw [hm] at hok
    simp only [Bool.and_eq_true, beq_iff_eq, decide_eq_true_eq] at hok
    exact ⟨v, rfl, hok.1.1, hok.1.2, hok.2⟩

/-! ### Step lemmas for `decompose` and `recomposeAux` -/

theorem decompose_skip {c : Char} (h : symbolMap c = none) (rest : List Char) :
    decompose (c :: rest) = decompose rest := by
  cases rest <;> simp [decompose, h]

theorem decompose_vowel {c : Char} {p : Phoneme} (h : symbolMap c = some p)
    (hv : p.is_vowel = true) (rest : List Char) :
    decompose (c :: rest) = p :: decompose rest := by
  cases rest <;> simp [decompose, h, hv]

theorem decompose_cons_end {c : Char} {p : Phoneme} (h : symbolMap c = some p)
    (hv : p.is_vowel = false) (hvir : p ≠ VIRAMA) :
    decompose [c] = [p, A] := by
  simp [decompose, h, hv, hvir]

theorem decompose_cons_matra {c d : Char} {p v : Phoneme}
    (h : symbolMap c = some p) (hv : p.is_vowel = false) (hvir : p ≠ VIRAMA)
    (hm : matraMap d = some v) (rest : List Char) :
    decompose (c :: d :: rest) = p :: v :: decompose rest := by
  simp [decompose, h, hv, hvir, hm]

theorem decompose_cons_virama {c : Char} {p : Phoneme}
    (h : symbolMap c = some p) (hv : p.is_vowel = false) (hvir : p ≠ VIRAMA)
    (rest : List Char) :
    decompose (c :: '्' :: rest) = p :: decompose rest := by
  have hm : matraMap '्' = none := by decide
  simp only [decompose, h, hv, hvir, hm]
  simp [hvir]
  intro hcontra
  exact absurd rfl hcontra

theorem decompose_cons_inherent {c d : Char} {p : Phoneme}
    (h : symbolMap c = some p) (hv : p.is_vowel = false) (hvir : p ≠ VIRAMA)
    (hm : matraMap d = none) (hd : d ≠ '्') (rest : List Char) :
    decompose (c :: d :: rest) = p :: A :: decompose (d :: rest) := by
  simp only [decompose, h, hv, hvir, hm]
  simp [hvir]
  intro hcontra
  exact absurd hcontra hd

theorem decompose_virama (rest : List Char) :
    decompose ('्' :: rest) = VIRAMA :: decompose rest := by
  cases rest <;> rfl

theorem recomposeAux_vowel_indep {prev : Option Phoneme} {p : Phoneme}
    (hv : p.is_vowel = true)
    (hprev : prev = none ∨ ∃ q, prev = some q ∧ q.is_vowel = true)
    (rest : List Phoneme) :
    recomposeAux prev (p :: rest) = p.symbol :: recomposeAux (some p) rest := by
  rcases hprev with hp | ⟨q, hp, hq⟩ <;> subst hp <;> simp [recomposeAux, hv, *]

theorem recomposeAux_A_after_cons {q : Phoneme} (hq : q.is_vowel = false)
    (hqv : q ≠ VIRAMA) (rest : List Phoneme) :
    recomposeAux (some q) (A :: rest) = recomposeAux (some A) rest := by
  simp [recomposeAux, hq, hqv, A]

theorem recomposeAux_matra_after_cons {q p : Phoneme} {m : Char}
    (hq : q.is_vowel = false) (hqv : q ≠ VIRAMA) (hv : p.is_vowel = true)
    (hpa : p ≠ A) (hm : p.as_matra = some m) (rest : List Phoneme) :
    recomposeAux (some q) (p :: rest) = m :: recomposeAux (some p) rest := by
  simp [recomposeAux, hq, hqv, hv, hpa, hm]

theorem recomposeAux_cons_virama {prev : Option Phoneme} {p : Phoneme}
    (hv : p.is_vowel = false)
    (hex : p.symbol ∉ (['्', 'ं', 'ः'] : List Char))
    {rest : List Phoneme}
    (hnext : rest = [] ∨ ∃ q t, rest = q :: t ∧ q.is_vowel = false) :
    recomposeAux prev (p :: rest) =
      p.symbol :: '्' :: recomposeAux (some p) rest := by
  rcases hnext with hr | ⟨q, t, hr, hq⟩ <;> subst hr <;>
    simp [recomposeAux, hv, hex, *, VIRAMA]

theorem recomposeAux_cons_vowelNext {prev : Option Phoneme} {p q : Phoneme}
    (hv : p.is_vowel = false)
    (hex : p.symbol ∉ (['्', 'ं', 'ः'] : List Char)) (hq : q.is_vowel = true)
    (t : List Phoneme) :
    recomposeAux prev (p :: q :: t) =
      p.symbol :: recomposeAux (some p) (q :: t) := by
  simp [recomposeAux, hv, hex, hq]

theorem recomposeAux_modifier {prev : Option Phoneme} {p : Phoneme}
    (hv : p.is_vowel = false)
    (hex : p.symbol ∈ (['्', 'ं', 'ः'] : List Char)) (rest : List Phoneme) :
    recomposeAux prev (p :: rest) = p.symbol :: recomposeAux (some p) rest := by
  simp [recomposeAux, hv, hex]

/-- A well-formed nonempty string starts with a recognized non-matra,
non-suppressor glyph. -/
theorem wfAux_head {m : Bool} {c : Char} {t : List Char}
    (h : wfAux m (c :: t) = true) :
    isVowelGlyph c = true ∨ isConsGlyph c = true ∨ isModGlyph c = true := by
  by_contra hc
  push_neg at hc
  simp only [Bool.not_eq_true] at hc
  obtain ⟨h1, h2, h3⟩ := hc
  cases t <;> simp [wfAux, h1, h2, h3] at h

/-- The decomposition of a string starting with a consonant glyph starts
with that consonant's (non-vowel) phoneme. -/
theorem decompose_head_cons {e : Char} (he : isConsGlyph e = true)
    (t : List Char) :
    ∃ pe tl, decompose (e :: t) = pe :: tl ∧ pe.is_vowel = false := by
  obtain ⟨p, hsm, hpv, _, hvir, _, _, _, _⟩ := consGlyph_spec e he
  cases t with
  | nil => exact ⟨p, [A], decompose_cons_end hsm hpv hvir, hpv⟩
  | cons d t' =>
    cases hm : matraMap d with
    | some v => exact ⟨p, _, decompose_cons_matra hsm hpv hvir hm t', hpv⟩
    | none =>
      by_cases hd : d = '्'
      · subst hd
        exact ⟨p, _, decompose_cons_virama hsm hpv hvir t', hpv⟩
      · exact ⟨p, _, decompose_cons_inherent hsm hpv hvir hm hd t', hpv⟩

/-- The precondition that `recomposeAux` needs of its lookbehind argument: a
consonant lookbehind is only allowed when the rest of the string does not
start with an independent vowel glyph. -/
abbrev prevOK (prev : Option Phoneme) (cs : List Char) : Prop :=
  (prev = none ∨ ∃ q, prev = some q ∧ q.is_vowel = true) ∨
    (∀ c t, cs = c :: t → isVowelGlyph c = false)

/-- Main round-trip induction: a well-formed suffix recomposes to itself,
for any admissible lookbehind. -/
theorem roundtripAux :
    ∀ n : Nat, ∀ cs : List Char, cs.length ≤ n →
      ∀ (m : Bool) (prev : Option Phoneme), wfAux m cs = true →
        prevOK prev cs → recomposeAux prev (decompose cs) = cs := by
  intro n
  induction n with
  | zero =>
    intro cs hlen m prev h hp
    have hnil : cs = [] := List.eq_nil_of_length_eq_zero (Nat.le_zero.mp hlen)
    subst hnil; rfl
  | succ k ih =>
    intro cs hlen m prev h hp
    cases cs with
    | nil => rfl
    | cons c rest =>
      have hlen' : rest.length ≤ k := by
        simp only [List.length_cons] at hlen; omega
      rcases wfAux_head h with hvg | hcg | hmg
      · -- independent-vowel glyph
        obtain ⟨p, hsm, hpv, hsym, _, _⟩ := vowelGlyph_spec c hvg
        have hprev : prev = none ∨ ∃ q, prev = some q ∧ q.is_vowel = true := by
          rcases hp with h1 | h2
          · exact h1
          · rw [h2 c rest rfl] at hvg; cases hvg
        rw [decompose_vowel hsm hpv, recomposeAux_vowel_indep hpv hprev, hsym]
        have hrest : wfAux true rest = true := by
          cases rest with
          | nil => rfl
          | cons d t => simpa [wfAux, hvg] using h
        rw [ih rest hlen' true (some p) hrest (Or.inl (Or.inr ⟨p, rfl, hpv⟩))]
      · -- consonant glyph
        obtain ⟨p, hsm, hpv, hsym, hvir, hex, _, _, hcv⟩ := consGlyph_spec c hcg
        cases rest with
        | nil =>
          rw [decompose_cons_end hsm hpv hvir,
            recomposeAux_cons_vowelNext hpv hex rfl,
            recomposeAux_A_after_cons hpv hvir, hsym]
          rfl
        | cons d t =>
          have hlen'' : t.length ≤ k := by
            simp only [List.length_cons] at hlen; omega
          cases hmd : isMatraGlyph d with
          | true =>
            obtain ⟨v, hm, hvv, hva, hvm⟩ := matraGlyph_spec d hmd
            have hrest : wfAux true t = true := by
              simpa [wfAux, hcv, hcg, hmd] using h
            rw [decompose_cons_matra hsm hpv hvir hm,
              recomposeAux_cons_vowelNext hpv hex hvv,
              recomposeAux_matra_after_cons hpv hvir hvv hva hvm, hsym]
            rw [ih t hlen'' true (some v) hrest (Or.inl (Or.inr ⟨v, rfl, hvv⟩))]
          | false =>
            by_cases hd : d = '्'
            · subst hd
              have hmdf : isMatraGlyph '्' = false := by decide
              cases t with
              | nil =>
                rw [decompose_cons_virama hsm hpv hvir,
                  show decompose [] = [] from rfl,
                  recomposeAux_cons_virama hpv hex (Or.inl rfl), hsym]
                rfl
              | cons e t' =>
                have h' : (isConsGlyph e && wfAux false (e :: t')) = true := by
                  simpa [wfAux, hcv, hcg, hmdf] using h
                rw [Bool.and_eq_true] at h'
                obtain ⟨hce, hwf⟩ := h'
                obtain ⟨pe, tl, hde, hpe⟩ := decompose_head_cons hce t'
                have hpok : prevOK (some p) (e :: t') := by
                  refine Or.inr (fun c' t'' hct => ?_)
                  obtain ⟨he1, he2⟩ := List.cons.inj hct
                  subst he1
                  obtain ⟨_, _, _, _, _, _, _, _, hcv'⟩ := consGlyph_spec e hce
                  exact hcv'
                rw [decompose_cons_virama hsm hpv hvir,
                  recomposeAux_cons_virama hpv hex
                    (Or.inr ⟨pe, tl, hde, hpe⟩), hsym]
                rw [ih (e :: t') hlen'' false (some p) hwf hpok]
            · have hm : matraMap d = none := matraMap_eq_none hmd
              have hrest : wfAux true (d :: t) = true := by
                simpa [wfAux, hcv, hcg, hmd, hd] using h
              rw [decompose_cons_inherent hsm hpv hvir hm hd,
                recomposeAux_cons_vowelNext hpv hex rfl,
                recomposeAux_A_after_cons hpv hvir, hsym]
              rw [ih (d :: t) hlen' true (some A) hrest
                (Or.inl (Or.inr ⟨A, rfl, rfl⟩))]
      · -- modifier glyph (anusvara / visarga)
        obtain ⟨p, hsm, hpv, hsym, hvir, hex, _, _, hmv, hmc⟩ :=
          modGlyph_spec c hmg
        have h' : (m && wfAux true rest) = true := by
          cases rest with
          | nil => simpa [wfAux, hmv, hmc, hmg] using h
          | cons d t => simpa [wfAux, hmv, hmc, hmg] using h
        rw [Bool.and_eq_true] at h'
        obtain ⟨-, hrest⟩ := h'
        have hdec : decompose (c :: rest) = p :: A :: decompose rest := by
          cases rest with
          | nil => exact decompose_cons_end hsm hpv hvir
          | cons d t =>
            rcases wfAux_head hrest with hdg | hdg | hdg
            · obtain ⟨_, _, _, _, hdm, hdv⟩ := vowelGlyph_spec d hdg
              exact decompose_cons_inherent hsm hpv hvir hdm hdv t
            · obtain ⟨_, _, _, _, _, _, hdm, hdv, _⟩ := consGlyph_spec d hdg
              exact decompose_cons_inherent hsm hpv hvir hdm hdv t
            · obtain ⟨_, _, _, _, _, _, hdm, hdv, _, _⟩ := modGlyph_spec d hdg
              exact decompose_cons_inherent hsm hpv hvir hdm hdv t
        rw [hdec, recomposeAux_modifier hpv hex,
          recomposeAux_A_after_cons hpv hvir, hsym]
        rw [ih rest hlen' true (some A) hrest (Or.inl (Or.inr ⟨A, rfl, rfl⟩))]

theorem symbolMap_symbol {c : Char} {p : Phoneme} (h : symbolMap c = some p) :
    p.symbol = c := by
  have := List.find?_some h
  simpa using this

/-- The registry facts about the phoneme found for a consonant glyph. -/
theorem consGlyph_phoneme {c : Char} {p : Phoneme} (hc : isConsGlyph c = true)
    (hsm : symbolMap c = some p) :
    p.is_vowel = false ∧ p ≠ VIRAMA ∧ matraMap c = none ∧ c ≠ '्' := by
  obtain ⟨q, hsm', h2, _, h4, _, h6, h7, _⟩ := consGlyph_spec c hc
  rw [hsm] at hsm'
  obtain rfl := Option.some.inj hsm'
  exact ⟨h2, h4, h6, h7⟩

/-- Appending a consonant glyph appends exactly its phoneme plus the
inherent short vowel: the lookahead never consumes a trailing consonant and
never changes earlier emissions. -/
theorem decompose_append_cons :
    ∀ n : Nat, ∀ cs : List Char, cs.length ≤ n → ∀ c p,
      isConsGlyph c = true → symbolMap c = some p →
      decompose (cs ++ [c]) = decompose cs ++ [p, A] := by
  intro n
  induction n with
  | zero =>
    intro cs hlen c p hc hsm
    have hnil : cs = [] := List.eq_nil_of_length_eq_zero (Nat.le_zero.mp hlen)
    subst hnil
    obtain ⟨hpv, hvir, _, _⟩ := consGlyph_phoneme hc hsm
    simpa using decompose_cons_end hsm hpv hvir
  | succ k ih =>
    intro cs hlen c p hc hsm
    obtain ⟨hpv, hvir, hmc, hdc⟩ := consGlyph_phoneme hc hsm
    cases cs with
    | nil => simpa using decompose_cons_end hsm hpv hvir
    | cons x xs =>
      have hlen' : xs.length ≤ k := by
        simp only [List.length_cons] at hlen; omega
      simp only [List.cons_append]
      cases hq : symbolMap x with
      | none =>
        rw [decompose_skip hq (xs ++ [c]), decompose_skip hq xs]
        exact ih xs hlen' c p hc hsm
      | some q =>
        by_cases hqv : q.is_vowel = true
        · rw [decompose_vowel hq hqv (xs ++ [c]), decompose_vowel hq hqv xs,
            List.cons_append, ih xs hlen' c p hc hsm]
        · have hqv' : q.is_vowel = false := by
            simpa using hqv
          by_cases hvq : q = VIRAMA
          · subst hvq
            have hx : x = '्' := (symbolMap_symbol hq).symm
            subst hx
            rw [decompose_virama (xs ++ [c]), decompose_virama xs,
              List.cons_append, ih xs hlen' c p hc hsm]
          · cases xs with
            | nil =>
              simp only [List.nil_append]
              rw [decompose_cons_inherent hq hqv' hvq hmc hdc [],
                decompose_cons_end hsm hpv hvir,
                decompose_cons_end hq hqv' hvq]
              rfl
            | cons d xs' =>
              have hlen'' : xs'.length ≤ k := by
                simp only [List.length_cons] at hlen; omega
              simp only [List.cons_append]
              cases hm : matraMap d with
              | some v =>
                rw [decompose_cons_matra hq hqv' hvq hm (xs' ++ [c]),
                  decompose_cons_matra hq hqv' hvq hm xs',
                  List.cons_append, List.cons_append,
                  ih xs' hlen'' c p hc hsm]
              | none =>
                by_cases hdv : d = '्'
                · subst hdv
                  rw [decompose_cons_virama hq hqv' hvq (xs' ++ [c]),
                    decompose_cons_virama hq hqv' hvq xs',
                    List.cons_append, ih xs' hlen'' c p hc hsm]
                · rw [decompose_cons_inherent hq hqv' hvq hm hdv (xs' ++ [c]),
                    decompose_cons_inherent hq hqv' hvq hm hdv xs']
                  have hih := ih (d :: xs') hlen' c p hc hsm
                  simp only [List.cons_append] at hih
                  rw [hih]
                  simp only [List.cons_append]

/-! ### Stripping is idempotent -/

theorem dropWhile_self_idem (q : Char → Bool) (l : List Char) :
    (l.dropWhile q).dropWhile q = l.dropWhile q := by
  induction l with
  | nil => rfl
  | cons x xs ihx =>
    by_cases hx : q x = true
    · rw [List.dropWhile_cons_of_pos hx]; exact ihx
    · rw [List.dropWhile_cons_of_neg (by simp [hx]),
        List.dropWhile_cons_of_neg (by simp [hx])]

theorem dropWhile_pre (q : Char → Bool) (l : List Char) :
    ∃ pre, l = pre ++ l.dropWhile q := by
  induction l with
  | nil => exact ⟨[], rfl⟩
  | cons x xs ihx =>
    by_cases hx : q x = true
    · obtain ⟨pre, hpre⟩ := ihx
      exact ⟨x :: pre, by rw [List.dropWhile_cons_of_pos hx, List.cons_append,
        ← hpre]⟩
    · exact ⟨[], by rw [List.dropWhile_cons_of_neg (by simp [hx])]; rfl⟩

theorem dropWhile_head_false (q : Char → Bool) {l : List Char} {x : Char}
    {xs : List Char} (h : l.dropWhile q = x :: xs) : q x = false := by
  induction l with
  | nil => cases h
  | cons y ys ihy =>
    by_cases hy : q y = true
    · rw [List.dropWhile_cons_of_pos hy] at h; exact ihy h
    · rw [List.dropWhile_cons_of_neg (by simp [hy])] at h
      obtain ⟨rfl, -⟩ := List.cons.inj h
      simpa using hy

theorem dropWhile_eq_self_of_head (q : Char → Bool) {l : List Char}
    (h : ∀ x xs, l = x :: xs → q x = false) : l.dropWhile q = l := by
  cases l with
  | nil => rfl
  | cons x xs => rw [List.dropWhile_cons_of_neg (by simp [h x xs rfl])]

/-- `str.strip().strip() == str.strip()`. -/
theorem pyStrip_idem (l : List Char) : pyStrip (pyStrip l) = pyStrip l := by
  set q := Char.isWhitespace with hq
  set u := l.dropWhile q with hu
  set b := u.reverse.dropWhile q with hb
  have hps : pyStrip l = b.reverse := rfl
  have hfb : b.reverse.dropWhile q = b.reverse := by
    refine dropWhile_eq_self_of_head q ?_
    intro x xs hx
    -- the head of `b.reverse` is the head of `u`, which `dropWhile` rejected
    obtain ⟨pre, hpre⟩ := dropWhile_pre q u.reverse
    have hbne : b ≠ [] := by
      intro hbe
      rw [hbe] at hx; cases hx
    have hu' : u = b.reverse ++ pre.reverse := by
      have := congrArg List.reverse hpre
      rwa [List.reverse_reverse, List.reverse_append, ← hb] at this
    have hhead : ∃ t, u = x :: t := by
      rw [hu', hx]
      exact ⟨xs ++ pre.reverse, by simp⟩
    obtain ⟨t, ht⟩ := hhead
    exact dropWhile_head_false q (hu ▸ ht)
  show ((b.reverse.dropWhile q).reverse.dropWhile q).reverse = b.reverse
  rw [hfb, List.reverse_reverse]
  have : b.dropWhile q = b := by
    rw [hb]
    exact dropWhile_self_idem q u.reverse
  rw [this]

theorem pyStrip_nil : pyStrip [] = [] := rfl

/-! ### Unfolding lemmas for the engine -/

theorem applyStripped_short {t1 t2 : List Char}
    (h : t1 = [] ∨ t2 = [] ∨ decompose t1 = [] ∨ decompose t2 = []) :
    applyStripped t1 t2 = ⟨t1 ++ sepPlus ++ t2, t1 ++ t2, none, 1⟩ := by
  unfold applyStripped
  rcases h with h | h | h | h
  · rw [if_pos (Or.inl h)]
  · rw [if_pos (Or.inr h)]
  · by_cases h12 : t1 = [] ∨ t2 = []
    · rw [if_pos h12]
    · rw [if_neg h12, if_pos (Or.inl h)]
  · by_cases h12 : t1 = [] ∨ t2 = []
    · rw [if_pos h12]
    · rw [if_neg h12, if_pos (Or.inr h)]

theorem applyStripped_main {t1 t2 : List Char} (h1 : t1 ≠ []) (h2 : t2 ≠ [])
    (h3 : decompose t1 ≠ []) (h4 : decompose t2 ≠ []) :
    applyStripped t1 t2 = ruleChain t1 t2 (decompose t1) (decompose t2) := by
  unfold applyStripped
  rw [if_neg (not_or.mpr ⟨h1, h2⟩), if_neg (not_or.mpr ⟨h3, h4⟩)]

theorem try101_original {t1 t2 : List Char} {p1 p2 : List Phoneme}
    {last first : Phoneme} {r : SandhiResult}
    (h : try101 t1 t2 p1 p2 last first = some r) :
    r.original = t1 ++ sepPlus ++ t2 := by
  unfold try101 at h
  split at h
  · simp only [Option.map_eq_some'] at h
    obtain ⟨rep, -, hr⟩ := h
    rw [← hr]; rfl
  · cases h

theorem try88_original {t1 t2 : List Char} {p1 p2 : List Phoneme}
    {last first : Phoneme} {r : SandhiResult}
    (h : try88 t1 t2 p1 p2 last first = some r) :
    r.original = t1 ++ sepPlus ++ t2 := by
  unfold try88 at h
  split at h
  · simp only [Option.map_eq_some'] at h
    obtain ⟨rep, -, hr⟩ := h
    rw [← hr]; rfl
  · cases h

theorem try87_original {t1 t2 : List Char} {p1 p2 : List Phoneme}
    {last first : Phoneme} {r : SandhiResult}
    (h : try87 t1 t2 p1 p2 last first = some r) :
    r.original = t1 ++ sepPlus ++ t2 := by
  unfold try87 at h
  split at h
  · split at h
    · cases h
    · obtain rfl := Option.some.inj h
      rfl
  · cases h

theorem try77_original {t1 t2 : List Char} {p1 p2 : List Phoneme}
    {last first : Phoneme} {r : SandhiResult}
    (h : try77 t1 t2 p1 p2 last first = some r) :
    r.original = t1 ++ sepPlus ++ t2 := by
  unfold try77 at h
  split at h
  · simp only [Option.map_eq_some'] at h
    obtain ⟨rep, -, hr⟩ := h
    rw [← hr]; rfl
  · cases h

theorem ruleChain_original (t1 t2 : List Char) (p1 p2 : List Phoneme) :
    (ruleChain t1 t2 p1 p2).original = t1 ++ sepPlus ++ t2 := by
  unfold ruleChain
  cases h101 : try101 t1 t2 p1 p2 (p1.getLastD A) (p2.headD A) with
  | some r => exact try101_original h101
  | none =>
    cases h88 : try88 t1 t2 p1 p2 (p1.getLastD A) (p2.headD A) with
    | some r => exact try88_original h88
    | none =>
      cases h87 : try87 t1 t2 p1 p2 (p1.getLastD A) (p2.headD A) with
      | some r => exact try87_original h87
      | none =>
        cases h77 : try77 t1 t2 p1 p2 (p1.getLastD A) (p2.headD A) with
        | some r => exact try77_original h77
        | none => rfl

theorem applyStripped_original (t1 t2 : List Char) :
    (applyStripped t1 t2).original = t1 ++ sepPlus ++ t2 := by
  unfold applyStripped
  split
  · rfl
  · split
    · rfl
    · exact ruleChain_original t1 t2 (decompose t1) (decompose t2)

/-! ### When each rule block fires, and when it falls through -/

theorem try101_fires (t1 t2 : List Char) (p1 p2 : List Phoneme)
    {last first : Phoneme}
    (hlast : last ∈ ([A, AA, I, II, U, UU, R, RR] : List Phoneme))
    (hfv : first.is_vowel = true) (hpl : last.place = first.place) :
    ∃ rep, dirghaOf last.symbol = some rep ∧
      try101 t1 t2 p1 p2 last first =
        some (mkResult t1 t2 (p1.dropLast ++ [rep] ++ p2.tail) "6.1.101") := by
  fin_cases hlast <;>
    exact ⟨_, rfl, by
      unfold try101
      rw [if_pos ⟨rfl, hfv, hpl, by decide⟩]
      rfl⟩

theorem try101_eq_none (t1 t2 : List Char) (p1 p2 : List Phoneme)
    {last first : Phoneme}
    (h : ¬(last.is_vowel = true ∧ first.is_vowel = true ∧
      last.place = first.place ∧ last.symbol ∈ AK ∧
      (dirghaOf last.symbol).isSome = true)) :
    try101 t1 t2 p1 p2 last first = none := by
  unfold try101
  by_cases hcond : last.is_vowel = true ∧ first.is_vowel = true ∧
      last.place = first.place ∧ last.symbol ∈ AK
  · rw [if_pos hcond]
    cases hd : dirghaOf last.symbol with
    | none => rfl
    | some rep =>
      exact absurd ⟨hcond.1, hcond.2.1, hcond.2.2.1, hcond.2.2.2,
        by rw [hd]; rfl⟩ h
  · rw [if_neg hcond]

theorem try88_fires (t1 t2 : List Char) (p1 p2 : List Phoneme)
    {last first : Phoneme} {rep : Phoneme}
    (hlast : last.symbol ∈ ([A.symbol, AA.symbol] : List Char))
    (hfv : first.is_vowel = true)
    (hrep : vrddhiOf first.symbol = some rep) :
    try88 t1 t2 p1 p2 last first =
      some (mkResult t1 t2 (p1.dropLast ++ [rep] ++ p2.tail) "6.1.88") := by
  unfold try88
  rw [if_pos ⟨hlast, hfv⟩, hrep]
  rfl

theorem try88_eq_none (t1 t2 : List Char) (p1 p2 : List Phoneme)
    {last first : Phoneme}
    (h : ¬(last.symbol ∈ ([A.symbol, AA.symbol] : List Char) ∧
      first.is_vowel = true ∧ (vrddhiOf first.symbol).isSome = true)) :
    try88 t1 t2 p1 p2 last first = none := by
  unfold try88
  by_cases hcond : last.symbol ∈ ([A.symbol, AA.symbol] : List Char) ∧
      first.is_vowel = true
  · rw [if_pos hcond]
    cases hd : vrddhiOf first.symbol with
    | none => rfl
    | some rep => exact absurd ⟨hcond.1, hcond.2, by rw [hd]; rfl⟩ h
  · rw [if_neg hcond]

theorem try87_fires (t1 t2 : List Char) (p1 p2 : List Phoneme)
    {last first : Phoneme}
    (hlast : last.symbol ∈ ([A.symbol, AA.symbol] : List Char))
    (hfv : first.is_vowel = true) (hne : gunaOf first.symbol ≠ []) :
    try87 t1 t2 p1 p2 last first =
      some (mkResult t1 t2 (p1.dropLast ++ gunaOf first.symbol ++ p2.tail)
        "6.1.87") := by
  unfold try87
  rw [if_pos ⟨hlast, hfv⟩]
  cases hg : gunaOf first.symbol with
  | nil => exact absurd hg hne
  | cons x xs => rfl

theorem try87_eq_none (t1 t2 : List Char) (p1 p2 : List Phoneme)
    {last first : Phoneme}
    (h : ¬(last.symbol ∈ ([A.symbol, AA.symbol] : List Char) ∧
      first.is_vowel = true ∧ gunaOf first.symbol ≠ [])) :
    try87 t1 t2 p1 p2 last first = none := by
  unfold try87
  by_cases hcond : last.symbol ∈ ([A.symbol, AA.symbol] : List Char) ∧
      first.is_vowel = true
  · rw [if_pos hcond]
    cases hg : gunaOf first.symbol with
    | nil => rfl
    | cons x xs =>
      exact absurd ⟨hcond.1, hcond.2, by rw [hg]; exact List.cons_ne_nil x xs⟩ h
  · rw [if_neg hcond]

theorem try77_fires (t1 t2 : List Char) (p1 p2 : List Phoneme)
    {last first : Phoneme} {y : Phoneme}
    (hlast : last.symbol ∈ IK) (hfv : first.is_vowel = true)
    (hy : yanMap last.symbol = some y) :
    try77 t1 t2 p1 p2 last first =
      some (mkResult t1 t2 (p1.dropLast ++ [y] ++ p2) "6.1.77") := by
  unfold try77
  rw [if_pos ⟨hlast, hfv⟩, hy]
  rfl

theorem try77_eq_none (t1 t2 : List Char) (p1 p2 : List Phoneme)
    {last first : Phoneme}
    (h : ¬(last.symbol ∈ IK ∧ first.is_vowel = true ∧
      (yanMap last.symbol).isSome = true)) :
    try77 t1 t2 p1 p2 last first = none := by
  unfold try77
  by_cases hcond : last.symbol ∈ IK ∧ first.is_vowel = true
  · rw [if_pos hcond]
    cases hd : yanMap last.symbol with
    | none => rfl
    | some y => exact absurd ⟨hcond.1, hcond.2, by rw [hd]; rfl⟩ h
  · rw [if_neg hcond]

/-! ### Assembling the chain -/

theorem ruleChain_101 {t1 t2 : List Char} {p1 p2 : List Phoneme}
    {r : SandhiResult}
    (h101 : try101 t1 t2 p1 p2 (p1.getLastD A) (p2.headD A) = some r) :
    ruleChain t1 t2 p1 p2 = r := by
  unfold ruleChain
  rw [h101]

theorem ruleChain_88 {t1 t2 : List Char} {p1 p2 : List Phoneme}
    {r : SandhiResult}
    (h101 : try101 t1 t2 p1 p2 (p1.getLastD A) (p2.headD A) = none)
    (h88 : try88 t1 t2 p1 p2 (p1.getLastD A) (p2.headD A) = some r) :
    ruleChain t1 t2 p1 p2 = r := by
  unfold ruleChain
  rw [h101, h88]

theorem ruleChain_87 {t1 t2 : List Char} {p1 p2 : List Phoneme}
    {r : SandhiResult}
    (h101 : try101 t1 t2 p1 p2 (p1.getLastD A) (p2.headD A) = none)
    (h88 : try88 t1 t2 p1 p2 (p1.getLastD A) (p2.headD A) = none)
    (h87 : try87 t1 t2 p1 p2 (p1.getLastD A) (p2.headD A) = some r) :
    ruleChain t1 t2 p1 p2 = r := by
  unfold ruleChain
  rw [h101, h88, h87]

theorem ruleChain_77 {t1 t2 : List Char} {p1 p2 : List Phoneme}
    {r : SandhiResult}
    (h101 : try101 t1 t2 p1 p2 (p1.getLastD A) (p2.headD A) = none)
    (h88 : try88 t1 t2 p1 p2 (p1.getLastD A) (p2.headD A) = none)
    (h87 : try87 t1 t2 p1 p2 (p1.getLastD A) (p2.headD A) = none)
    (h77 : try77 t1 t2 p1 p2 (p1.getLastD A) (p2.headD A) = some r) :
    ruleChain t1 t2 p1 p2 = r := by
  unfold ruleChain
  rw [h101, h88, h87, h77]

theorem ruleChain_fallback {t1 t2 : List Char} {p1 p2 : List Phoneme}
    (h101 : try101 t1 t2 p1 p2 (p1.getLastD A) (p2.headD A) = none)
    (h88 : try88 t1 t2 p1 p2 (p1.getLastD A) (p2.headD A) = none)
    (h87 : try87 t1 t2 p1 p2 (p1.getLastD A) (p2.headD A) = none)
    (h77 : try77 t1 t2 p1 p2 (p1.getLastD A) (p2.headD A) = none) :
    ruleChain t1 t2 p1 p2 =
      ⟨t1 ++ sepPlus ++ t2, t1 ++ [' '] ++ t2, none, 0⟩ := by
  unfold ruleChain
  rw [h101, h88, h87, h77]

/-! ### The claims -/

/-- C1: for every orthographic string composed only of recognized Devanagari
glyphs with well-formed syllable structure (every consonant cluster properly
suppressed by the vowel-suppressor, no dangling modifiers),
`recompose (decompose x) = x`. -/
theorem c1_roundtrip (x : List Char) (h : wellFormed x = true) :
    recompose (decompose x) = x :=
  roundtripAux x.length x le_rfl false none h (Or.inl (Or.inl rfl))

/-- Witness for C1 at the well-formed string "देवालय". -/
theorem c1_roundtrip_witness :
    recompose (decompose ['द', 'े', 'व', 'ा', 'ल', 'य']) =
      ['द', 'े', 'व', 'ा', 'ल', 'य'] :=
  c1_roundtrip ['द', 'े', 'व', 'ा', 'ल', 'य'] (by decide)

/-- C4 counterexample: a standalone anusvara is NOT emitted as exactly its
own single modifier phoneme — `decompose` emits an extra inherent `A` after
it, because the modifier is handled by the consonant branch. -/
theorem c4_counterexample :
    decompose ['ं'] = [ANUSVARA, A] ∧ decompose ['ं'] ≠ [ANUSVARA] := by
  decide

/-- C4 (amended): an anusvara/visarga glyph at the scan position whose
lookahead finds neither a dependent-vowel sign nor the vowel-suppressor is
emitted as its own modifier phoneme immediately followed by the inherent
short-vowel phoneme `A`. -/
theorem c4_modifier_inherent (c : Char) (rest : List Char)
    (hc : isModGlyph c = true)
    (hla : ∀ d t, rest = d :: t → matraMap d = none ∧ d ≠ '्') :
    ∃ p, symbolMap c = some p ∧ p.symbol = c ∧ p.is_vowel = false ∧
      decompose (c :: rest) = p :: A :: decompose rest := by
  obtain ⟨p, hsm, hpv, hsym, hvir, _, _, _, _, _⟩ := modGlyph_spec c hc
  refine ⟨p, hsm, hsym, hpv, ?_⟩
  cases rest with
  | nil => exact decompose_cons_end hsm hpv hvir
  | cons d t =>
    obtain ⟨hm, hd⟩ := hla d t rfl
    exact decompose_cons_inherent hsm hpv hvir hm hd t

/-- Witness for C4 (amended) at a standalone anusvara. -/
theorem c4_modifier_inherent_witness :
    ∃ p, symbolMap 'ं' = some p ∧ p.symbol = 'ं' ∧ p.is_vowel = false ∧
      decompose ['ं'] = p :: A :: decompose [] :=
  c4_modifier_inherent 'ं' [] (by decide) (fun d t h => by cases h)

/-- C6: if either term is empty after trimming, or either term decomposes to
an empty phoneme sequence, `apply` returns the direct concatenation of the
trimmed terms, confidence 1.0, and no matched rule. -/
theorem c6_empty_shortcircuit (term1 term2 : List Char)
    (h : pyStrip term1 = [] ∨ pyStrip term2 = [] ∨
      decompose (pyStrip term1) = [] ∨ decompose (pyStrip term2) = []) :
    sandhiApply term1 term2 =
      ⟨pyStrip term1 ++ sepPlus ++ pyStrip term2,
       pyStrip term1 ++ pyStrip term2, none, 1⟩ :=
  applyStripped_short h

/-- Witness for C6: `apply("", "क")`. -/
theorem c6_empty_shortcircuit_witness :
    sandhiApply [] ['क'] = ⟨[' ', '+', ' ', 'क'], ['क'], none, 1⟩ :=
  c6_empty_shortcircuit [] ['क'] (Or.inl rfl)

/-- C8: when no rule block fires at the boundary, `apply` joins the trimmed
terms with a single visible space, confidence 0.0, no rule. -/
theorem c8_no_rule (term1 term2 : List Char)
    (hp1 : decompose (pyStrip term1) ≠ [])
    (hp2 : decompose (pyStrip term2) ≠ [])
    (h101 : try101 (pyStrip term1) (pyStrip term2) (decompose (pyStrip term1))
      (decompose (pyStrip term2)) ((decompose (pyStrip term1)).getLastD A)
      ((decompose (pyStrip term2)).headD A) = none)
    (h88 : try88 (pyStrip term1) (pyStrip term2) (decompose (pyStrip term1))
      (decompose (pyStrip term2)) ((decompose (pyStrip term1)).getLastD A)
      ((decompose (pyStrip term2)).headD A) = none)
    (h87 : try87 (pyStrip term1) (pyStrip term2) (decompose (pyStrip term1))
      (decompose (pyStrip term2)) ((decompose (pyStrip term1)).getLastD A)
      ((decompose (pyStrip term2)).headD A) = none)
    (h77 : try77 (pyStrip term1) (pyStrip term2) (decompose (pyStrip term1))
      (decompose (pyStrip term2)) ((decompose (pyStrip term1)).getLastD A)
      ((decompose (pyStrip term2)).headD A) = none) :
    sandhiApply term1 term2 =
      ⟨pyStrip term1 ++ sepPlus ++ pyStrip term2,
       pyStrip term1 ++ [' '] ++ pyStrip term2, none, 0⟩ := by
  have hs1 : pyStrip term1 ≠ [] := fun h => hp1 (by rw [h]; rfl)
  have hs2 : pyStrip term2 ≠ [] := fun h => hp2 (by rw [h]; rfl)
  show applyStripped (pyStrip term1) (pyStrip term2) = _
  rw [applyStripped_main hs1 hs2 hp1 hp2,
    ruleChain_fallback h101 h88 h87 h77]

/-- Witness for C8: `apply("क", "त")`. -/
theorem c8_no_rule_witness :
    sandhiApply ['क'] ['त'] =
      ⟨['क', ' ', '+', ' ', 'त'], ['क', ' ', 'त'], none, 0⟩ := by
  have h := c8_no_rule ['क'] ['त'] (by decide) (by decide) (by decide)
    (by decide) (by decide) (by decide)
  exact h

/-- C9: a trailing consonant glyph at end of input, with no following glyph,
still receives the inherent short vowel: its phoneme and `A` are the final
elements of the decomposition. -/
theorem c9_trailing_consonant (x : List Char) (c : Char)
    (hc : isConsGlyph c = true) :
    ∃ p, symbolMap c = some p ∧
      decompose (x ++ [c]) = decompose x ++ [p, A] := by
  obtain ⟨p, hsm, _, _, _, _, _, _, _⟩ := consGlyph_spec c hc
  exact ⟨p, hsm, decompose_append_cons x.length x le_rfl c p hc hsm⟩

/-- Witness for C9 at "देव" followed by a bare "क". -/
theorem c9_trailing_consonant_witness :
    ∃ p, symbolMap 'क' = some p ∧
      decompose (['द', 'े', 'व'] ++ ['क']) =
        decompose ['द', 'े', 'व'] ++ [p, A] :=
  c9_trailing_consonant ['द', 'े', 'व'] 'क' (by decide)

/-- C10: `apply` trims both terms before any processing — the result is
invariant under pre-stripping, and the `original` field is always the
trimmed term1, `" + "`, the trimmed term2. -/
theorem c10_strip_invariance (term1 term2 : List Char) :
    sandhiApply term1 term2 =
      sandhiApply (pyStrip term1) (pyStrip term2) ∧
    (sandhiApply term1 term2).original =
      pyStrip term1 ++ sepPlus ++ pyStrip term2 := by
  constructor
  · show applyStripped (pyStrip term1) (pyStrip term2) =
      applyStripped (pyStrip (pyStrip term1)) (pyStrip (pyStrip term2))
    rw [pyStrip_idem, pyStrip_idem]
  · exact applyStripped_original (pyStrip term1) (pyStrip term2)

/-! ### Helper facts for the vowel rules -/

theorem yan_facts {last : Phoneme}
    (hlast : last ∈ ([I, II, U, UU, R, RR, L] : List Phoneme)) :
    last.symbol ∈ IK ∧
    last.symbol ∉ ([A.symbol, AA.symbol] : List Char) ∧
    ∃ y, yanMap last.symbol = some y ∧
      ((last = I ∨ last = II) → y = YA) ∧
      ((last = U ∨ last = UU) → y = VA) ∧
      ((last = R ∨ last = RR) → y = RA) ∧
      (last = L → y = LA) := by
  fin_cases hlast <;>
    exact ⟨by decide, by decide, _, rfl, by decide, by decide, by decide,
      by decide⟩

theorem guna_facts {first : Phoneme}
    (hfirst : first ∈ ([I, II, U, UU, R, RR, L] : List Phoneme)) :
    first.is_vowel = true ∧ (vrddhiOf first.symbol).isSome = false ∧
    gunaOf first.symbol ≠ [] ∧
    ((first = I ∨ first = II) → gunaOf first.symbol = [E]) ∧
    ((first = U ∨ first = UU) → gunaOf first.symbol = [O]) ∧
    ((first = R ∨ first = RR) → gunaOf first.symbol = [A, RA]) ∧
    (first = L → gunaOf first.symbol = [A, LA]) := by
  fin_cases hfirst <;>
    exact ⟨rfl, rfl, by decide, by decide, by decide, by decide, by decide⟩

theorem guna_place_facts {last first : Phoneme}
    (hlast : last ∈ ([A, AA] : List Phoneme))
    (hfirst : first ∈ ([I, II, U, UU, R, RR, L] : List Phoneme)) :
    last.place ≠ first.place ∧
    last.symbol ∈ ([A.symbol, AA.symbol] : List Char) := by
  fin_cases hlast <;> fin_cases hfirst <;> exact ⟨by decide, by decide⟩

/-- When the boundary satisfies the 6.1.101 trigger with a last phoneme that
has a long form, `apply` fires rule 6.1.101.  Shared engine-level lemma. -/
theorem sandhiApply_101 (term1 term2 : List Char)
    (hp1 : decompose (pyStrip term1) ≠ [])
    (hp2 : decompose (pyStrip term2) ≠ [])
    (hlast : (decompose (pyStrip term1)).getLastD A ∈
      ([A, AA, I, II, U, UU, R, RR] : List Phoneme))
    (hfv : ((decompose (pyStrip term2)).headD A).is_vowel = true)
    (hpl : ((decompose (pyStrip term1)).getLastD A).place =
      ((decompose (pyStrip term2)).headD A).place) :
    ∃ rep, dirghaOf ((decompose (pyStrip term1)).getLastD A).symbol =
        some rep ∧
      sandhiApply term1 term2 =
        ⟨pyStrip term1 ++ sepPlus ++ pyStrip term2,
         recompose ((decompose (pyStrip term1)).dropLast ++ [rep] ++
           (decompose (pyStrip term2)).tail),
         some sutra101, 1⟩ := by
  have hs1 : pyStrip term1 ≠ [] := fun h => hp1 (by rw [h]; rfl)
  have hs2 : pyStrip term2 ≠ [] := fun h => hp2 (by rw [h]; rfl)
  obtain ⟨rep, hrep, htry⟩ :=
    try101_fires (pyStrip term1) (pyStrip term2)
      (decompose (pyStrip term1)) (decompose (pyStrip term2)) hlast hfv hpl
  refine ⟨rep, hrep, ?_⟩
  show applyStripped (pyStrip term1) (pyStrip term2) = _
  rw [applyStripped_main hs1 hs2 hp1 hp2, ruleChain_101 htry]
  rfl

/-- C2 counterexample: at `apply("ऌ", "ऌ")` the two boundary phonemes are
vowels with the same place of articulation and the last is vocalic-l, a
member of the claim's simple-vowel class; yet the matched rule is 6.1.77,
not 6.1.101. -/
theorem c2_counterexample :
    (decompose (pyStrip ['ऌ']) ≠ [] ∧
     ((decompose (pyStrip ['ऌ'])).getLastD A).is_vowel = true ∧
     ((decompose (pyStrip ['ऌ'])).headD A).is_vowel = true ∧
     ((decompose (pyStrip ['ऌ'])).getLastD A).place =
       ((decompose (pyStrip ['ऌ'])).headD A).place ∧
     (decompose (pyStrip ['ऌ'])).getLastD A ∈
       ([A, AA, I, II, U, UU, R, RR, L] : List Phoneme)) ∧
    (sandhiApply ['ऌ'] ['ऌ']).rule_applied = some sutra77 ∧
    sutra77.id = "6.1.77" ∧
    (sandhiApply ['ऌ'] ['ऌ']).rule_applied ≠ some sutra101 := by
  decide

/-- C2 (amended): the vowel-lengthening behaviour holds for the simple-vowel
class without vocalic-l (a/ā, i/ī, u/ū, ṛ/ṝ): both boundary phonemes merge
into the single long vowel of that class, rule id 6.1.101, confidence 1.0. -/
theorem c2_savarna_dirgha (term1 term2 : List Char)
    (hp1 : decompose (pyStrip term1) ≠ [])
    (hp2 : decompose (pyStrip term2) ≠ [])
    (hlast : (decompose (pyStrip term1)).getLastD A ∈
      ([A, AA, I, II, U, UU, R, RR] : List Phoneme))
    (hfv : ((decompose (pyStrip term2)).headD A).is_vowel = true)
    (hpl : ((decompose (pyStrip term1)).getLastD A).place =
      ((decompose (pyStrip term2)).headD A).place) :
    ∃ rep, dirghaOf ((decompose (pyStrip term1)).getLastD A).symbol =
        some rep ∧
      sandhiApply term1 term2 =
        ⟨pyStrip term1 ++ sepPlus ++ pyStrip term2,
         recompose ((decompose (pyStrip term1)).dropLast ++ [rep] ++
           (decompose (pyStrip term2)).tail),
         some sutra101, 1⟩ :=
  sandhiApply_101 term1 term2 hp1 hp2 hlast hfv hpl

/-- Witness for C2 (amended): `apply("देव", "आलय")` merges अ + आ into आ and
yields "देवालय" with rule 6.1.101. -/
theorem c2_savarna_dirgha_witness :
    (sandhiApply ['द', 'े', 'व'] ['आ', 'ल', 'य']).rule_applied =
      some sutra101 ∧
    (sandhiApply ['द', 'े', 'व'] ['आ', 'ल', 'य']).modified =
      ['द', 'े', 'व', 'ा', 'ल', 'य'] := by
  obtain ⟨rep, hrep, happ⟩ := c2_savarna_dirgha ['द', 'े', 'व']
    ['आ', 'ल', 'य'] (by decide) (by decide) (by decide) (by decide)
    (by decide)
  have hrepAA : rep = AA := by
    have h2 : dirghaOf
        ((decompose (pyStrip ['द', 'े', 'व'])).getLastD A).symbol =
        some AA := by decide
    rw [hrep] at h2
    exact Option.some.inj h2
  subst hrepAA
  rw [happ]
  exact ⟨rfl, by decide⟩

/-- C3 counterexample: at `apply("ऌ", "ऌ")` both the vowel-lengthening
trigger (with the spec's simple-vowel class, which contains vocalic-l) and
the lower-priority semivowel-substitution trigger hold, yet the returned
rule is 6.1.77, not vowel-lengthening. -/
theorem c3_counterexample :
    (((decompose (pyStrip ['ऌ'])).getLastD A).is_vowel = true ∧
     ((decompose (pyStrip ['ऌ'])).headD A).is_vowel = true ∧
     ((decompose (pyStrip ['ऌ'])).getLastD A).place =
       ((decompose (pyStrip ['ऌ'])).headD A).place ∧
     (decompose (pyStrip ['ऌ'])).getLastD A ∈
       ([A, AA, I, II, U, UU, R, RR, L] : List Phoneme)) ∧
    (((decompose (pyStrip ['ऌ'])).getLastD A).symbol ∈ IK ∧
     (yanMap ((decompose (pyStrip ['ऌ'])).getLastD A).symbol).isSome =
       true) ∧
    (sandhiApply ['ऌ'] ['ऌ']).rule_applied ≠ some sutra101 := by
  decide

/-- C3 (amended): when the boundary satisfies both the vowel-lengthening
trigger restricted to the class with a long form (a/ā, i/ī, u/ū, ṛ/ṝ) and
any lower-priority trigger (vṛddhi, guṇa, or semivowel substitution),
`apply` returns rule 6.1.101 with confidence 1.0. -/
theorem c3_precedence (term1 term2 : List Char)
    (hp1 : decompose (pyStrip term1) ≠ [])
    (hp2 : decompose (pyStrip term2) ≠ [])
    (hlast : (decompose (pyStrip term1)).getLastD A ∈
      ([A, AA, I, II, U, UU, R, RR] : List Phoneme))
    (hfv : ((decompose (pyStrip term2)).headD A).is_vowel = true)
    (hpl : ((decompose (pyStrip term1)).getLastD A).place =
      ((decompose (pyStrip term2)).headD A).place)
    (_hlower :
      (((decompose (pyStrip term1)).getLastD A).symbol ∈
          ([A.symbol, AA.symbol] : List Char) ∧
        (vrddhiOf ((decompose (pyStrip term2)).headD A).symbol).isSome =
          true) ∨
      (((decompose (pyStrip term1)).getLastD A).symbol ∈
          ([A.symbol, AA.symbol] : List Char) ∧
        gunaOf ((decompose (pyStrip term2)).headD A).symbol ≠ []) ∨
      (((decompose (pyStrip term1)).getLastD A).symbol ∈ IK ∧
        (yanMap ((decompose (pyStrip term1)).getLastD A).symbol).isSome =
          true)) :
    (sandhiApply term1 term2).rule_applied = some sutra101 ∧
    (sandhiApply term1 term2).confidence = 1 := by
  obtain ⟨rep, -, happ⟩ := sandhiApply_101 term1 term2 hp1 hp2 hlast hfv hpl
  rw [happ]
  exact ⟨rfl, rfl⟩

/-- Witness for C3 (amended): `apply("इ", "इ")` satisfies both the
vowel-lengthening and the semivowel-substitution triggers; 6.1.101 wins. -/
theorem c3_precedence_witness :
    (sandhiApply ['इ'] ['इ']).rule_applied = some sutra101 ∧
    (sandhiApply ['इ'] ['इ']).confidence = 1 :=
  c3_precedence ['इ'] ['इ'] (by decide) (by decide) (by decide) (by decide)
    (by decide) (Or.inr (Or.inr (by decide)))

/-- C5: when the last phoneme of term1 is in the semivowel-derivable class
(i/ī, u/ū, ṛ/ṝ, ḷ), the first phoneme of term2 is a vowel, and rule 1 does
not fire (rules 2 and 3 cannot, since the last phoneme is not a/ā), `apply`
replaces only the last phoneme of term1 with its corresponding semivowel
(i/ī→y, u/ū→v, ṛ/ṝ→r, ḷ→l), keeps the whole decomposition of term2, and
returns rule 6.1.77 with confidence 1.0. -/
theorem c5_semivowel (term1 term2 : List Char)
    (hp1 : decompose (pyStrip term1) ≠ [])
    (hp2 : decompose (pyStrip term2) ≠ [])
    (hlast : (decompose (pyStrip term1)).getLastD A ∈
      ([I, II, U, UU, R, RR, L] : List Phoneme))
    (hfv : ((decompose (pyStrip term2)).headD A).is_vowel = true)
    (h101 : ¬(((decompose (pyStrip term1)).getLastD A).place =
        ((decompose (pyStrip term2)).headD A).place ∧
      (dirghaOf ((decompose (pyStrip term1)).getLastD A).symbol).isSome =
        true)) :
    ∃ y, yanMap ((decompose (pyStrip term1)).getLastD A).symbol = some y ∧
      (((decompose (pyStrip term1)).getLastD A = I ∨
          (decompose (pyStrip term1)).getLastD A = II) → y = YA) ∧
      (((decompose (pyStrip term1)).getLastD A = U ∨
          (decompose (pyStrip term1)).getLastD A = UU) → y = VA) ∧
      (((decompose (pyStrip term1)).getLastD A = R ∨
          (decompose (pyStrip term1)).getLastD A = RR) → y = RA) ∧
      ((decompose (pyStrip term1)).getLastD A = L → y = LA) ∧
      sandhiApply term1 term2 =
        ⟨pyStrip term1 ++ sepPlus ++ pyStrip term2,
         recompose ((decompose (pyStrip term1)).dropLast ++ [y] ++
           decompose (pyStrip term2)),
         some sutra77, 1⟩ := by
  have hs1 : pyStrip term1 ≠ [] := fun h => hp1 (by rw [h]; rfl)
  have hs2 : pyStrip term2 ≠ [] := fun h => hp2 (by rw [h]; rfl)
  obtain ⟨hsymIK, hsymA, y, hy, hm1, hm2, hm3, hm4⟩ := yan_facts hlast
  have h101' : try101 (pyStrip term1) (pyStrip term2)
      (decompose (pyStrip term1)) (decompose (pyStrip term2))
      ((decompose (pyStrip term1)).getLastD A)
      ((decompose (pyStrip term2)).headD A) = none :=
    try101_eq_none _ _ _ _ (fun hc => h101 ⟨hc.2.2.1, hc.2.2.2.2⟩)
  have h88' : try88 (pyStrip term1) (pyStrip term2)
      (decompose (pyStrip term1)) (decompose (pyStrip term2))
      ((decompose (pyStrip term1)).getLastD A)
      ((decompose (pyStrip term2)).headD A) = none :=
    try88_eq_none _ _ _ _ (fun hc => hsymA hc.1)
  have h87' : try87 (pyStrip term1) (pyStrip term2)
      (decompose (pyStrip term1)) (decompose (pyStrip term2))
      ((decompose (pyStrip term1)).getLastD A)
      ((decompose (pyStrip term2)).headD A) = none :=
    try87_eq_none _ _ _ _ (fun hc => hsymA hc.1)
  have htry := try77_fires (pyStrip term1) (pyStrip term2)
    (decompose (pyStrip term1)) (decompose (pyStrip term2)) hsymIK hfv hy
  refine ⟨y, hy, hm1, hm2, hm3, hm4, ?_⟩
  show applyStripped (pyStrip term1) (pyStrip term2) = _
  rw [applyStripped_main hs1 hs2 hp1 hp2, ruleChain_77 h101' h88' h87' htry]
  rfl

/-- Witness for C5: `apply("इ", "अ")` (dissimilar places) substitutes इ→य्
and yields "य" with rule 6.1.77. -/
theorem c5_semivowel_witness :
    (sandhiApply ['इ'] ['अ']).rule_applied = some sutra77 ∧
    (sandhiApply ['इ'] ['अ']).modified = ['य'] := by
  obtain ⟨y, hy, hm1, hm2, hm3, hm4, happ⟩ := c5_semivowel ['इ'] ['अ']
    (by decide) (by decide) (by decide) (by decide) (by decide)
  have hyYA : y = YA := hm1 (Or.inl (by decide))
  subst hyYA
  rw [happ]
  exact ⟨rfl, by decide⟩

/-- C7: when the last phoneme of term1 is short/long "a" and the first
phoneme of term2 is i/ī, u/ū, ṛ/ṝ or ḷ (the only vowels for which neither
rule 1 nor rule 2 applies), `apply` merges the boundary into [e], [o],
[a, r] or [a, l] respectively and returns rule 6.1.87 with confidence 1. -/
theorem c7_guna (term1 term2 : List Char)
    (hp1 : decompose (pyStrip term1) ≠ [])
    (hp2 : decompose (pyStrip term2) ≠ [])
    (hlast : (decompose (pyStrip term1)).getLastD A ∈
      ([A, AA] : List Phoneme))
    (hfirst : (decompose (pyStrip term2)).headD A ∈
      ([I, II, U, UU, R, RR, L] : List Phoneme)) :
    (((decompose (pyStrip term2)).headD A = I ∨
        (decompose (pyStrip term2)).headD A = II) →
      gunaOf ((decompose (pyStrip term2)).headD A).symbol = [E]) ∧
    (((decompose (pyStrip term2)).headD A = U ∨
        (decompose (pyStrip term2)).headD A = UU) →
      gunaOf ((decompose (pyStrip term2)).headD A).symbol = [O]) ∧
    (((decompose (pyStrip term2)).headD A = R ∨
        (decompose (pyStrip term2)).headD A = RR) →
      gunaOf ((decompose (pyStrip term2)).headD A).symbol = [A, RA]) ∧
    ((decompose (pyStrip term2)).headD A = L →
      gunaOf ((decompose (pyStrip term2)).headD A).symbol = [A, LA]) ∧
    sandhiApply term1 term2 =
      ⟨pyStrip term1 ++ sepPlus ++ pyStrip term2,
       recompose ((decompose (pyStrip term1)).dropLast ++
         gunaOf ((decompose (pyStrip term2)).headD A).symbol ++
         (decompose (pyStrip term2)).tail),
       some sutra87, 1⟩ := by
  have hs1 : pyStrip term1 ≠ [] := fun h => hp1 (by rw [h]; rfl)
  have hs2 : pyStrip term2 ≠ [] := fun h => hp2 (by rw [h]; rfl)
  obtain ⟨hfv, hvrd, hgne, hg1, hg2, hg3, hg4⟩ := guna_facts hfirst
  obtain ⟨hplne, hsymA⟩ := guna_place_facts hlast hfirst
  have h101' : try101 (pyStrip term1) (pyStrip term2)
      (decompose (pyStrip term1)) (decompose (pyStrip term2))
      ((decompose (pyStrip term1)).getLastD A)
      ((decompose (pyStrip term2)).headD A) = none :=
    try101_eq_none _ _ _ _ (fun hc => hplne hc.2.2.1)
  have h88' : try88 (pyStrip term1) (pyStrip term2)
      (decompose (pyStrip term1)) (decompose (pyStrip term2))
      ((decompose (pyStrip term1)).getLastD A)
      ((decompose (pyStrip term2)).headD A) = none :=
    try88_eq_none _ _ _ _ (fun hc => by
      rw [hvrd] at hc
      exact Bool.noConfusion hc.2.2)
  have htry := try87_fires (pyStrip term1) (pyStrip term2)
    (decompose (pyStrip term1)) (decompose (pyStrip term2)) hsymA hfv hgne
  refine ⟨hg1, hg2, hg3, hg4, ?_⟩
  show applyStripped (pyStrip term1) (pyStrip term2) = _
  rw [applyStripped_main hs1 hs2 hp1 hp2, ruleChain_87 h101' h88' htry]
  rfl

/-- Witness for C7: `apply("अ", "इन्द्रः")` matches rule 6.1.87 with
confidence 1.0 (Scenario C). -/
theorem c7_guna_witness :
    (sandhiApply ['अ'] ['इ', 'न', '्', 'द', '्', 'र', 'ः']).rule_applied =
      some sutra87 ∧
    (sandhiApply ['अ'] ['इ', 'न', '्', 'द', '्', 'र', 'ः']).confidence =
      1 := by
  obtain ⟨-, -, -, -, happ⟩ := c7_guna ['अ']
    ['इ', 'न', '्', 'द', '्', 'र', 'ः'] (by decide) (by decide) (by decide)
    (by decide)
  rw [happ]
  exact ⟨rfl, rfl⟩

end Panini
